import Mathlib

/-!
Shallow embedding of the `BeatDetect` audio tempo / beat-grid analysis
class (TypeScript) and its helpers.

Modelling conventions:
* IEEE-754 sample values, tempos and times are modelled exactly by `ℚ`;
  sample positions by `ℤ` (the phase correction can push them negative).
* An out-of-range JS array read yields `undefined`; every arithmetic
  comparison against the resulting `NaN` is false.  In each window scan the
  running maximum's volume never drops below its initial `0`, so reading a
  `0` via `List.getD` is observationally the same as skipping the index.
* JS `while` loops are embedded as fuel-indexed recursions.  The supplied
  fuel is an explicit upper bound on the number of iterations the source
  loop performs whenever it terminates; once the loop guard fails the
  recursion stops, so any sufficient fuel yields the loop's exit value.
  Where a loop can fail to terminate (the octave-folding loops on a
  non-positive inter-peak distance), the enclosing function returns
  `Option`-`none`, and a separate extended-number model (`JSNum`) carries
  the genuine divergence argument.
-/

/-- One analysis peak (the source's `Peak` interface):
`{ position: sample index, volume: amplitude }`. -/
structure Peak where
  position : ℤ
  volume : ℚ
deriving DecidableEq, Inhabited

/-- The source's `_floatRound(value, precision)`:
`Math.round(value * 10^precision) / 10^precision`.  JS `Math.round` is
"round half toward positive infinity", which is Lean's `round`. -/
def floatRound (value : ℚ) (precision : ℕ) : ℚ :=
  (round (value * 10 ^ precision) : ℤ) / 10 ^ precision

/-- Iteration count of `for (let i = 0; i < parts; ++i)` where
`parts = length / partSize` is a (possibly fractional) JS number: the loop
body runs once for every natural `i < L/w`, i.e. `⌈L/w⌉` times.  In
particular a trailing partial window still gets an iteration of its own. -/
def partCount (L w : ℕ) : ℕ := (⌈(L : ℚ) / (w : ℚ)⌉).toNat

/-- Inner window scan of `_getPeaks`: `j` runs from `i*partSize` to
`(i+1)*partSize`, `volume = Math.max(Math.abs(L[j]), Math.abs(R[j]))`, and
the running maximum `{position: 0, volume: 0}` is replaced exactly when the
new volume is strictly larger (`volume > max.volume`). -/
def windowPeakLR (dataL dataR : List ℚ) (lo w : ℕ) : Peak :=
  (List.range' lo w).foldl
    (fun m j =>
      if m.volume < max |dataL.getD j 0| |dataR.getD j 0| then
        { position := (j : ℤ), volume := max |dataL.getD j 0| |dataR.getD j 0| }
      else m)
    { position := 0, volume := 0 }

/-- The windowing pass of `_getPeaks`: one peak per window, in window
order, over the stereo pair of channels. -/
def getPeaksRaw (w : ℕ) (dataL dataR : List ℚ) : List Peak :=
  (List.range (partCount dataL.length w)).map fun i => windowPeakLR dataL dataR (i * w) w

/-- The comparator `(a, b) => b.volume - a.volume`: descending volume.
JS `Array.prototype.sort` is stable, as is `List.insertionSort`. -/
def volDesc (a b : Peak) : Prop := b.volume ≤ a.volume

/-- The comparator `(a, b) => a.position - b.position`: ascending position. -/
def posAsc (a b : Peak) : Prop := a.position ≤ b.position

instance : DecidableRel volDesc := fun a b => inferInstanceAs (Decidable (b.volume ≤ a.volume))

instance : DecidableRel posAsc := fun a b => inferInstanceAs (Decidable (a.position ≤ b.position))

instance : IsTotal Peak volDesc := ⟨fun a b => le_total b.volume a.volume⟩

instance : IsTrans Peak volDesc := ⟨fun _ _ _ h1 h2 => le_trans h2 h1⟩

instance : IsTotal Peak posAsc := ⟨fun a b => le_total a.position b.position⟩

instance : IsTrans Peak posAsc := ⟨fun _ _ _ h1 h2 => le_trans h1 h2⟩

/-- `_getPeaks`: window scan, sort descending by volume, keep
`peaks.splice(0, peaks.length * 0.5)` — `splice` truncates the fractional
count toward zero, so exactly `⌊n / 2⌋` peaks survive — then re-sort the
kept prefix ascending by position. -/
def getPeaks (w : ℕ) (dataL dataR : List ℚ) : List Peak :=
  let sorted := List.insertionSort volDesc (getPeaksRaw w dataL dataR)
  List.insertionSort posAsc (sorted.take (sorted.length / 2))

/-- The `while (group.tempo <= bpmMin) group.tempo *= 2` loop of
`_getIntervals`, with explicit fuel. -/
def doubleSteps (bpmMin : ℚ) : ℕ → ℚ → ℚ
  | 0, tempo => tempo
  | fuel + 1, tempo =>
    if tempo ≤ bpmMin then doubleSteps bpmMin fuel (tempo * 2) else tempo

/-- The `while (group.tempo > bpmMax) group.tempo /= 2` loop of
`_getIntervals`, with explicit fuel. -/
def halveSteps (bpmMax : ℚ) : ℕ → ℚ → ℚ
  | 0, tempo => tempo
  | fuel + 1, tempo =>
    if bpmMax < tempo then halveSteps bpmMax fuel (tempo / 2) else tempo

/-- The doubling loop run to completion.  For a terminating run
(`0 < tempo`) the fuel `f = ⌈bpmMin / tempo⌉` dominates the number of
doublings needed: `2 ^ f ≥ f + 1 > bpmMin / tempo`, so
`tempo * 2 ^ f > bpmMin` and the guard fails within `f` iterations. -/
def foldUp (bpmMin tempo : ℚ) : ℚ :=
  doubleSteps bpmMin (⌈bpmMin / tempo⌉.toNat) tempo

/-- The halving loop run to completion.  For a terminating run
(`0 < bpmMax`) the fuel `⌈tempo / bpmMax⌉` dominates the number of
halvings needed. -/
def foldDown (bpmMax tempo : ℚ) : ℚ :=
  halveSteps bpmMax (⌈tempo / bpmMax⌉.toNat) tempo

/-- The configured rounding of a folded tempo: `Math.round` when the
`round` option is set, else `_floatRound(tempo, _float)`. -/
def roundCfg (rnd : Bool) (prec : ℕ) (tempo : ℚ) : ℚ :=
  if rnd then (round tempo : ℤ) else floatRound tempo prec

/-- One interval's contribution in `_getIntervals`: raw tempo
`60 * sampleRate / (peaks[index+i].position - peak.position)`, octave
folded into the configured range, then rounded as configured. -/
def intervalTempo (sr bpmMin bpmMax : ℚ) (rnd : Bool) (prec : ℕ) (d : ℤ) : ℚ :=
  roundCfg rnd prec (foldDown bpmMax (foldUp bpmMin (60 * sr / (d : ℚ))))

/-- A tempo candidate group (the source's `IntervalGroup`). -/
structure IntervalGroup where
  tempo : ℚ
  count : ℕ
  position : ℤ
  peaks : List Peak
deriving DecidableEq, Inhabited

/-- The `groups.some(...)` vote of `_getIntervals`: the first group with
the same rounded tempo gets `++count` and the current anchor peak pushed
onto its supporting set; if none matches, a fresh group (count 1, empty
supporting set, anchored at the first peak of the pair) is appended. -/
def addVote (peak : Peak) (tempo : ℚ) (anchor : ℤ) : List IntervalGroup → List IntervalGroup
  | [] => [{ tempo := tempo, count := 1, position := anchor, peaks := [] }]
  | g :: gs =>
    if g.tempo = tempo then
      { g with count := g.count + 1, peaks := g.peaks ++ [peak] } :: gs
    else
      g :: addVote peak tempo anchor gs

/-- The index pairs visited by `_getIntervals`: for every `index`, the
lookahead `i = 1, …` while `index + i < n && i < 10`. -/
def intervalPairs (n : ℕ) : List (ℕ × ℕ) :=
  (List.range n).flatMap fun index =>
    (List.range' 1 (min 9 (n - index - 1))).map fun i => (index, index + i)

/-- The loop body of `_getIntervals` for one index pair.  When the
inter-peak distance `d` is not positive the source never returns: the raw
tempo is `+Infinity` (for `d = 0`) or negative (for `d < 0`), and for a
positive configured range the octave folding loops then never exit (see
`halveLoopHalts` / `doubleLoopHalts` for the genuine divergence argument).
The embedding reports such a run as `none`. -/
def voteStep (sr bpmMin bpmMax : ℚ) (rnd : Bool) (prec : ℕ) (peaks : List Peak)
    (acc : Option (List IntervalGroup)) (pr : ℕ × ℕ) : Option (List IntervalGroup) :=
  acc.bind fun groups =>
    let peak := peaks.getD pr.1 default
    let next := peaks.getD pr.2 default
    let d := next.position - peak.position
    if d ≤ 0 then none
    else some (addVote peak (intervalTempo sr bpmMin bpmMax rnd prec d) peak.position groups)

/-- `_getIntervals`: fold `voteStep` over every visited index pair,
starting from no groups. -/
def getIntervals (sr bpmMin bpmMax : ℚ) (rnd : Bool) (prec : ℕ) (peaks : List Peak) :
    Option (List IntervalGroup) :=
  (intervalPairs peaks.length).foldl (voteStep sr bpmMin bpmMax rnd prec peaks) (some [])

/-- The `while (offset >= bpmTime) offset -= bpmTime * timeSignature` loop
of `_getLowestTimeOffset`, with explicit fuel. -/
def subWhile (bpmTime step : ℚ) : ℕ → ℚ → ℚ
  | 0, offset => offset
  | fuel + 1, offset =>
    if bpmTime ≤ offset then subWhile bpmTime step fuel (offset - step) else offset

/-- The `while (offset < 0) offset += bpmTime` loop of
`_getLowestTimeOffset`, with explicit fuel. -/
def addWhile (bpmTime : ℚ) : ℕ → ℚ → ℚ
  | 0, offset => offset
  | fuel + 1, offset =>
    if offset < 0 then addWhile bpmTime fuel (offset + bpmTime) else offset

/-- `_getLowestTimeOffset(position, bpm)`: reduce `position / sampleRate`
by whole bars while it is `>= bpmTime`, then, if negative, add single beat
periods until non-negative.  The fuel of each loop dominates its
iteration count on every terminating run. -/
def lowestTimeOffset (sr sig : ℚ) (position : ℤ) (bpm : ℚ) : ℚ :=
  let bpmTime := 60 / bpm
  let firstBeatTime := (position : ℚ) / sr
  let stepBack := bpmTime * sig
  let o1 := subWhile bpmTime stepBack (⌈firstBeatTime / stepBack⌉.toNat) firstBeatTime
  if o1 < 0 then addWhile bpmTime (⌈-o1 / bpmTime⌉.toNat) o1 else o1

/-- The band test of `_getOffsets` step 3, verbatim:
`offset - refOffset < 0.05 || refOffset - offset > -0.05`. -/
def bandTest (offset refOffset : ℚ) : Prop :=
  offset - refOffset < 1 / 20 ∨ refOffset - offset > -(1 / 20)

instance (o r : ℚ) : Decidable (bandTest o r) :=
  inferInstanceAs (Decidable (_ ∨ _))

/-- One iteration of the accumulation loop of `_getOffsets` step 3: the
peak's lowest time offset is added to the running `(mean, divider)` pair
exactly when it passes the band test against `refOffset`. -/
def meanStep (sr sig bpm refOffset : ℚ) (md : ℚ × ℕ) (p : Peak) : ℚ × ℕ :=
  if bandTest (lowestTimeOffset sr sig p.position bpm) refOffset then
    (md.1 + lowestTimeOffset sr sig p.position bpm, md.2 + 1)
  else md

/-- The accumulation loop of `_getOffsets` step 3: running `(mean, divider)`
over the volume-sorted peaks. -/
def meanDivider (sr sig bpm refOffset : ℚ) (sorted : List Peak) : ℚ × ℕ :=
  sorted.foldl (meanStep sr sig bpm refOffset) (0, 0)

/-- Window scan of `_getOffsets`: one channel, `volume = data[j]` (no
absolute value), and the recorded position is shifted back by
`Math.round((60 / bpm) * 0.05 * sampleRate)` samples when assigned. -/
def getOffsetsRawPeaks (w : ℕ) (sr : ℚ) (data : List ℚ) (bpm : ℚ) : List Peak :=
  let corr : ℤ := round ((60 / bpm) * (1 / 20) * sr)
  (List.range (partCount data.length w)).map fun i =>
    (List.range' (i * w) w).foldl
      (fun m j =>
        if m.volume < data.getD j 0 then
          { position := (j : ℤ) - corr, volume := data.getD j 0 }
        else m)
      { position := 0, volume := 0 }

/-- The first-bar scan `let i = 0; while (unsortedPeaks[i].volume < 0.02) ++i`:
the index of the first raw peak whose volume is not below `0.02`
(`List.findIdx` returns the list length when every peak is quieter). -/
def firstBarScanIdx (peaks : List Peak) : ℕ :=
  peaks.findIdx fun p => decide ((1 : ℚ) / 50 ≤ p.volume)

/-- The pre-clamp `firstBar` candidate of `_getOffsets` step 4: the
(corrected) time of the first raw windowed peak with volume `>= 0.02`. -/
def firstBarCandidate (w : ℕ) (sr : ℚ) (data : List ℚ) (bpm : ℚ) : ℚ :=
  let unsortedPeaks := getOffsetsRawPeaks w sr data bpm
  ((unsortedPeaks.getD (firstBarScanIdx unsortedPeaks) default).position : ℚ) / sr

/-- The result record of `_getOffsets`. -/
structure Offsets where
  offset : ℚ
  firstBar : ℚ
deriving DecidableEq, Inhabited

/-- `_getOffsets(data, bpm)`.  The two places where the source throws on a
degenerate input are modelled as `none`: `peaks[0].position` when the scan
produced no window at all, and the unguarded first-bar scan when every raw
peak has volume `< 0.02` (it reads past the end of the array). -/
def getOffsets (w : ℕ) (sr sig : ℚ) (data : List ℚ) (bpm : ℚ) : Option Offsets :=
  let unsortedPeaks := getOffsetsRawPeaks w sr data bpm
  let peaks := List.insertionSort volDesc unsortedPeaks
  if peaks = [] then none
  else
    let refOffset := lowestTimeOffset sr sig (peaks.headD default).position bpm
    let md := meanDivider sr sig bpm refOffset peaks
    let i := firstBarScanIdx unsortedPeaks
    if i < unsortedPeaks.length then
      let mean := md.1
      let divider := (md.2 : ℚ)
      let firstBar := ((unsortedPeaks.getD i default).position : ℚ) / sr
      some { offset := mean / divider,
             firstBar :=
               if firstBar > mean / divider ∧ firstBar < 60 / bpm then mean / divider
               else firstBar }
    else none

/-- A JS number that may be (positive) infinity: the value space of the
octave-folding loop variable once a zero inter-peak distance has produced
`60 * sampleRate / 0 = +Infinity`. -/
inductive JSNum where
  | fin (val : ℚ) : JSNum
  | inf : JSNum
deriving DecidableEq

/-- One halving step `tempo /= 2`; IEEE: `Infinity / 2 = Infinity`. -/
def jsHalve : JSNum → JSNum
  | .fin q => .fin (q / 2)
  | .inf => .inf

/-- One doubling step `tempo *= 2`; IEEE: `Infinity * 2 = Infinity`. -/
def jsDouble : JSNum → JSNum
  | .fin q => .fin (q * 2)
  | .inf => .inf

/-- The guard `tempo <= bpmMin`; IEEE: `Infinity <= m` is false. -/
def jsLeQ : JSNum → ℚ → Prop
  | .fin q, m => q ≤ m
  | .inf, _ => False

/-- The guard `tempo > bpmMax`; IEEE: `Infinity > m` is true. -/
def jsGtQ : JSNum → ℚ → Prop
  | .fin q, m => m < q
  | .inf, _ => True

/-- The raw interval tempo `60 * sampleRate / (next.position - peak.position)`
as the JS division computes it for a positive sample rate: `+Infinity` when
the two peaks share a position, finite otherwise. -/
def rawTempoJS (sr : ℚ) (p q : ℤ) : JSNum :=
  if q - p = 0 then .inf else .fin (60 * sr / ((q - p : ℤ) : ℚ))

/-- Termination of `while (tempo <= bpmMin) tempo *= 2`: some iterate of
the loop body falsifies the guard. -/
def doubleLoopHalts (bpmMin : ℚ) (t : JSNum) : Prop :=
  ∃ k, ¬ jsLeQ (jsDouble^[k] t) bpmMin

/-- Termination of `while (tempo > bpmMax) tempo /= 2`: some iterate of
the loop body falsifies the guard. -/
def halveLoopHalts (bpmMax : ℚ) (t : JSNum) : Prop :=
  ∃ k, ¬ jsGtQ (jsHalve^[k] t) bpmMax

/-- The tap-tempo session state `{count, _ts.current, _ts.previous, _ts.first}`. -/
structure TapState where
  count : ℕ
  current : ℚ
  previous : ℚ
  first : ℚ
deriving DecidableEq, Inhabited

/-- The state at construction / after an idle reset: all zero. -/
def tapInit : TapState := { count := 0, current := 0, previous := 0, first := 0 }

/-- One `_tapBpm` invocation at timestamp `now` (the pending idle timer is
cancelled on entry; the re-armed timer is modelled by `tapReset` /
`tapIdleDelay`).  Returns the new state and the callback payload, if any:
on every tap with a previous tap recorded,
`bpm = 60000 * count / (current - first)`, rounded iff a precision option
was supplied. -/
def tapStep (precision : Option ℕ) (now : ℚ) (s : TapState) : TapState × Option ℚ :=
  let current := now
  let first := if s.first = 0 then current else s.first
  let payload : Option ℚ :=
    if s.previous ≠ 0 then
      let bpm := 60000 * s.count / (current - first)
      some (match precision with
            | some p => floatRound bpm p
            | none => bpm)
    else none
  ({ count := s.count + 1, current := current, previous := current, first := first }, payload)

/-- A whole tap session from the initial state: the final state and the
callback payload of each tap in order. -/
def tapRun (precision : Option ℕ) (times : List ℚ) : TapState × List (Option ℚ) :=
  times.foldl
    (fun st now =>
      let r := tapStep precision now st.1
      (r.1, st.2 ++ [r.2]))
    (tapInit, [])

/-- The idle interval of the re-armed `setTimeout`: 5000 ms. -/
def tapIdleDelay : ℚ := 5000

/-- What the idle timer does when it fires: zero every session counter and
deliver the textual "no data" sentinel to the callback. -/
def tapReset : TapState × String := (tapInit, "--")

/-! ### Helper lemmas -/

theorem partCount_eq (L w : ℕ) (hw : 0 < w) : partCount L w = (L + w - 1) / w := by
  have hw' : (0 : ℚ) < (w : ℚ) := by exact_mod_cast hw
  unfold partCount
  rw [Int.ceil_toNat]
  rcases Nat.eq_zero_or_pos L with hL | hL
  · subst hL
    have h1 : (0 + w - 1) / w = 0 := Nat.div_eq_of_lt (by omega)
    rw [h1]
    simp
  · set n := (L + w - 1) / w with hn_def
    have hn : n ≠ 0 := by
      have hwle : w ≤ L + w - 1 := by omega
      have := (Nat.one_le_div_iff hw).mpr hwle
      omega
    have hn1 : 1 ≤ n := Nat.one_le_iff_ne_zero.mpr hn
    have fact1 : n * w ≤ L + w - 1 := (Nat.le_div_iff_mul_le hw).mp (le_refl n)
    have fact2 : L + w - 1 < (n + 1) * w := (Nat.div_lt_iff_lt_mul hw).mp (Nat.lt_succ_self n)
    have hsplit : L + w - 1 = L - 1 + w := by omega
    have factA : L ≤ n * w := by
      rw [hsplit, Nat.succ_mul] at fact2
      have h1 : L - 1 < n * w := Nat.lt_of_add_lt_add_right fact2
      exact Nat.le_of_pred_lt (by rw [Nat.pred_eq_sub_one]; exact h1)
    have factB : (n - 1) * w < L := by
      rw [hsplit] at fact1
      have hmul : (n - 1) * w + w = n * w := by
        calc (n - 1) * w + w = (n - 1 + 1) * w := (Nat.succ_mul _ _).symm
        _ = n * w := by rw [Nat.sub_add_cancel hn1]
      have h1 : (n - 1) * w + w ≤ L - 1 + w := by rw [hmul]; exact fact1
      have h2 : (n - 1) * w ≤ L - 1 := Nat.le_of_add_le_add_right h1
      exact lt_of_le_of_lt h2 (Nat.sub_lt hL one_pos)
    rw [Nat.ceil_eq_iff hn]
    constructor
    · rw [lt_div_iff₀ hw']
      exact_mod_cast factB
    · rw [div_le_iff₀ hw']
      exact_mod_cast factA

theorem getD_replicate_zero (m j : ℕ) : (List.replicate m (0 : ℚ)).getD j 0 = 0 := by
  rw [List.getD_eq_getElem?_getD, List.getElem?_replicate]
  split <;> rfl

theorem windowPeakLR_zero (dataL dataR : List ℚ)
    (hL : ∀ j, dataL.getD j 0 = 0) (hR : ∀ j, dataR.getD j 0 = 0) (lo w : ℕ) :
    windowPeakLR dataL dataR lo w = { position := 0, volume := 0 } := by
  unfold windowPeakLR
  generalize List.range' lo w = js
  induction js with
  | nil => rfl
  | cons j js ih =>
    rw [List.foldl_cons]
    have h0 : max |dataL.getD j 0| |dataR.getD j 0| = 0 := by rw [hL, hR]; simp
    have hstep :
        (if ({ position := 0, volume := 0 } : Peak).volume <
              max |dataL.getD j 0| |dataR.getD j 0| then
            ({ position := (j : ℤ), volume := max |dataL.getD j 0| |dataR.getD j 0| } : Peak)
          else { position := 0, volume := 0 }) = { position := 0, volume := 0 } := by
      rw [h0]
      norm_num
    rw [hstep]
    exact ih

theorem ceil_as_floor (a : ℚ) : ⌈a⌉ = -⌊-a⌋ := by
  rw [Int.floor_neg]
  ring

/-! ### Peak extractor: window count (C6), kept fraction (C5), silent input (C7) -/

/-- C6 (amended): for a window size `w > 0` and channel length `L`, the
window scans emit `⌈L / w⌉ = (L + w - 1) / w` peaks, one per loop
iteration of `for (i = 0; i < parts; ++i)` with `parts = L / w` a JS
float.  A trailing partial window is NOT dropped: it contributes a peak
of its own (computed from its in-bounds samples).  The same windowing
applies to the single-channel scan of `_getOffsets`. -/
theorem windowCount_ceil (w : ℕ) (dataL dataR data : List ℚ) (sr bpm : ℚ) (hw : 0 < w) :
    (getPeaksRaw w dataL dataR).length = (dataL.length + w - 1) / w ∧
    (getOffsetsRawPeaks w sr data bpm).length = (data.length + w - 1) / w := by
  constructor
  · simp [getPeaksRaw, partCount_eq dataL.length w hw]
  · simp [getOffsetsRawPeaks, partCount_eq data.length w hw]

theorem windowCount_ceil_witness :
    (getPeaksRaw 2 [(0:ℚ), 0, 0] [0, 0, 0]).length = (3 + 2 - 1) / 2 ∧
    (getOffsetsRawPeaks 2 1 [(0:ℚ), 0, 0] 1).length = (3 + 2 - 1) / 2 :=
  windowCount_ceil 2 [0, 0, 0] [0, 0, 0] [0, 0, 0] 1 1 (by norm_num)

/-- C6 (counterexample): a 3-sample channel with window size 2 produces 2
window peaks — `⌈3/2⌉` — not `⌊3/2⌋ = 1` as the claim states: the
trailing partial window contributes a peak. -/
theorem getPeaksRaw_dropPartial_cex :
    (getPeaksRaw 2 [(0:ℚ), 0, 0] [0, 0, 0]).length = 2 ∧
    (getPeaksRaw 2 [(0:ℚ), 0, 0] [0, 0, 0]).length ≠ 3 / 2 := by
  have h : partCount 3 2 = 2 := by rw [partCount_eq 3 2 (by norm_num)]
  constructor <;> norm_num [getPeaksRaw, h]

/-- C5 (amended): the extractor keeps exactly `⌊n / 2⌋` of the `n` window
peaks (`splice` truncates `n * 0.5` toward zero) — including zero peaks
when `n = 1`; there is no "keep at least one" fallback — and the kept
prefix is re-sorted ascending by position. -/
theorem getPeaks_keepHalf (w : ℕ) (dataL dataR : List ℚ) :
    (getPeaks w dataL dataR).length = (getPeaksRaw w dataL dataR).length / 2 ∧
    (getPeaks w dataL dataR).Sorted posAsc := by
  constructor
  · simp only [getPeaks]
    rw [List.length_insertionSort, List.length_take, List.length_insertionSort]
    exact min_eq_left (Nat.div_le_self _ _)
  · simp only [getPeaks]
    exact List.sorted_insertionSort posAsc _

/-- C5 (counterexample): a single-window input yields one raw peak and
`splice(0, floor(1 * 0.5)) = splice(0, 0)` keeps none of it — the claim's
"keeps at least one peak" clause fails. -/
theorem getPeaks_keepAtLeastOne_cex :
    (getPeaksRaw 2 [(1:ℚ), 1] [1, 1]).length = 1 ∧ getPeaks 2 [(1:ℚ), 1] [1, 1] = [] := by
  have h : partCount 2 2 = 1 := by rw [partCount_eq 2 2 (by norm_num)]
  have h' : partCount ([(1:ℚ), 1] : List ℚ).length 2 = 1 := h
  constructor
  · norm_num [getPeaksRaw, h]
  · rw [getPeaks, getPeaksRaw, h']
    decide

/-- C7 (amended): on a fully silent buffer no sample volume ever exceeds
the initial running maximum `{position: 0, volume: 0}` (the comparison is
strict), so EVERY window emits the peak `{position: 0, volume: 0}` — the
position is 0 for all windows, not the window's first sample index. -/
theorem getPeaksRaw_silent (L w : ℕ) (hw : 0 < w) :
    getPeaksRaw w (List.replicate L 0) (List.replicate L 0) =
      List.replicate ((L + w - 1) / w) { position := 0, volume := 0 } := by
  unfold getPeaksRaw
  have hcount : partCount (List.replicate L (0:ℚ)).length w = (L + w - 1) / w := by
    rw [List.length_replicate, partCount_eq _ _ hw]
  rw [hcount]
  have hmap : ∀ i : ℕ,
      windowPeakLR (List.replicate L (0:ℚ)) (List.replicate L 0) (i * w) w =
        { position := 0, volume := 0 } := fun i =>
    windowPeakLR_zero _ _ (getD_replicate_zero _) (getD_replicate_zero _) _ _
  calc (List.range ((L + w - 1) / w)).map
        (fun i => windowPeakLR (List.replicate L (0:ℚ)) (List.replicate L 0) (i * w) w)
      = (List.range ((L + w - 1) / w)).map (fun _ => ({ position := 0, volume := 0 } : Peak)) :=
        List.map_congr_left fun i _ => hmap i
    _ = List.replicate ((L + w - 1) / w) { position := 0, volume := 0 } := by
        rw [List.map_const', List.length_range]

theorem getPeaksRaw_silent_witness :
    getPeaksRaw 2 (List.replicate 4 0) (List.replicate 4 0) =
      List.replicate ((4 + 2 - 1) / 2) { position := 0, volume := 0 } :=
  getPeaksRaw_silent 4 2 (by norm_num)

/-- C7 (counterexample): with two silent windows of size 2, the second
window's emitted peak has position 0, not its window start `1 * 2 = 2`. -/
theorem getPeaksRaw_silentPosition_cex :
    ¬ (((getPeaksRaw 2 (List.replicate 4 (0:ℚ)) (List.replicate 4 0)).getD 1 default).position
        = 1 * 2) := by
  have h : partCount 4 2 = 2 := by rw [partCount_eq 4 2 (by norm_num)]
  rw [getPeaksRaw, List.length_replicate, h]
  decide

/-! ### The band test (C4) and the first-bar scan (C10) -/

/-- C4 (counterexample): at `offset = 1`, `refOffset = 0` we have
`offset ≥ refOffset`, so the claimed description says the band test always
holds there; in fact both disjuncts are false.  The claimed equivalence
fails at this concrete input. -/
theorem bandTest_claim_cex :
    ¬ (bandTest 1 0 ↔ ((0:ℚ) ≤ 1 ∨ (0:ℚ) - 1 < 1 / 20)) := by
  unfold bandTest
  norm_num

/-- C4 (amended): the two disjuncts of the band test are the same
inequality, so the test is equivalent to `offset - refOffset < 0.05`
alone: it always holds when `offset ≤ refOffset`, and when
`offset > refOffset` it holds exactly when `offset - refOffset < 0.05` —
a one-sided tolerance, but on the opposite side from the claim. -/
theorem bandTest_oneSided (offset refOffset : ℚ) :
    bandTest offset refOffset ↔ offset - refOffset < 1 / 20 := by
  unfold bandTest
  constructor
  · rintro (h | h) <;> linarith
  · intro h
    exact Or.inl h

/-- C10: the scan `while (unsortedPeaks[i].volume < 0.02) ++i` ends within
bounds iff some raw windowed peak has volume `>= 0.02`; when every peak is
quieter the index reaches the array length, and the source reads
`unsortedPeaks[length].volume` past the end of the list. -/
theorem firstBarScan_inBounds (peaks : List Peak) :
    (firstBarScanIdx peaks < peaks.length ↔ ∃ p ∈ peaks, (1 : ℚ) / 50 ≤ p.volume) ∧
    ((∀ p ∈ peaks, p.volume < 1 / 50) → firstBarScanIdx peaks = peaks.length) := by
  have hiff : firstBarScanIdx peaks < peaks.length ↔
      ∃ p ∈ peaks, (1 : ℚ) / 50 ≤ p.volume := by
    unfold firstBarScanIdx
    rw [List.findIdx_lt_length]
    simp
  refine ⟨hiff, fun hall => ?_⟩
  have hnot : ¬ firstBarScanIdx peaks < peaks.length := by
    rw [hiff]
    rintro ⟨p, hp, hv⟩
    exact absurd (hall p hp) (not_lt.mpr hv)
  have hle : firstBarScanIdx peaks ≤ peaks.length := by
    unfold firstBarScanIdx
    exact List.findIdx_le_length _
  omega

/-! ### Octave-folding loop termination (C9) -/

theorem le_ceil_toNat (x : ℚ) (hx : 0 ≤ x) : x ≤ (⌈x⌉.toNat : ℚ) := by
  have h2 := Int.le_ceil x
  have h3 : (0 : ℤ) ≤ ⌈x⌉ := Int.ceil_nonneg hx
  calc x ≤ (⌈x⌉ : ℚ) := h2
  _ = ((⌈x⌉.toNat : ℤ) : ℚ) := by rw [Int.toNat_of_nonneg h3]
  _ = (⌈x⌉.toNat : ℚ) := by push_cast; ring

theorem lt_two_pow_ceil_toNat (x : ℚ) : x < 2 ^ ⌈x⌉.toNat := by
  rcases le_or_lt x 0 with h | h
  · have hpow : (0 : ℚ) < 2 ^ ⌈x⌉.toNat := by positivity
    linarith
  · have h1 := le_ceil_toNat x h.le
    have h2 : ((⌈x⌉.toNat : ℕ) : ℚ) < 2 ^ ⌈x⌉.toNat := by
      exact_mod_cast Nat.lt_two_pow ⌈x⌉.toNat
    linarith

theorem jsDouble_iterate_fin (q : ℚ) (k : ℕ) :
    jsDouble^[k] (JSNum.fin q) = JSNum.fin (q * 2 ^ k) := by
  induction k with
  | zero => simp
  | succ k ih =>
    rw [Function.iterate_succ_apply', ih, jsDouble]
    rw [pow_succ]
    ring_nf

theorem jsHalve_iterate_fin (q : ℚ) (k : ℕ) :
    jsHalve^[k] (JSNum.fin q) = JSNum.fin (q / 2 ^ k) := by
  induction k with
  | zero => simp
  | succ k ih =>
    rw [Function.iterate_succ_apply', ih, jsHalve]
    rw [pow_succ, div_div]

theorem jsHalve_iterate_inf (k : ℕ) : jsHalve^[k] JSNum.inf = JSNum.inf := by
  induction k with
  | zero => rfl
  | succ k ih => rw [Function.iterate_succ_apply', ih]; rfl

theorem doubleLoopHalts_fin (bpmMin q : ℚ) (hq : 0 < q) :
    doubleLoopHalts bpmMin (JSNum.fin q) := by
  refine ⟨⌈bpmMin / q⌉.toNat, ?_⟩
  rw [jsDouble_iterate_fin, jsLeQ]
  have h := lt_two_pow_ceil_toNat (bpmMin / q)
  rw [div_lt_iff₀ hq] at h
  push_neg
  calc bpmMin < 2 ^ ⌈bpmMin / q⌉.toNat * q := h
  _ = q * 2 ^ ⌈bpmMin / q⌉.toNat := by ring

theorem halveLoopHalts_fin (bpmMax q : ℚ) (hM : 0 < bpmMax) :
    halveLoopHalts bpmMax (JSNum.fin q) := by
  refine ⟨⌈q / bpmMax⌉.toNat, ?_⟩
  rw [jsHalve_iterate_fin, jsGtQ]
  have h := lt_two_pow_ceil_toNat (q / bpmMax)
  rw [div_lt_iff₀ hM] at h
  push_neg
  rw [div_le_iff₀ (by positivity : (0:ℚ) < 2 ^ ⌈q / bpmMax⌉.toNat)]
  have hq : q < bpmMax * 2 ^ ⌈q / bpmMax⌉.toNat := by
    calc q < 2 ^ ⌈q / bpmMax⌉.toNat * bpmMax := h
    _ = bpmMax * 2 ^ ⌈q / bpmMax⌉.toNat := by ring
  exact hq.le

theorem halveLoopHalts_inf_false (bpmMax : ℚ) : ¬ halveLoopHalts bpmMax JSNum.inf := by
  rintro ⟨k, hk⟩
  rw [jsHalve_iterate_inf] at hk
  exact hk trivial

/-- C9: for a peak list with strictly increasing positions and a range
`0 < bpmMin < bpmMax`, every inter-peak pair yields a positive finite raw
tempo, on which the doubling loop terminates, and the halving loop
terminates on every doubling iterate (in particular on the doubling
loop's exit value); whereas two peaks at one position yield raw tempo
`+Infinity`, and the halving loop then never terminates
(`Infinity / 2 = Infinity` stays above `bpmMax` forever). -/
theorem foldLoops_termination (sr bpmMin bpmMax : ℚ) (peaks : List Peak)
    (hsr : 0 < sr) (hmin : 0 < bpmMin) (hminmax : bpmMin < bpmMax)
    (hinc : peaks.Pairwise fun a b => a.position < b.position) :
    (∀ i j : Fin peaks.length, i < j →
      doubleLoopHalts bpmMin (rawTempoJS sr (peaks.get i).position (peaks.get j).position) ∧
      ∀ k : ℕ, halveLoopHalts bpmMax
        (jsDouble^[k] (rawTempoJS sr (peaks.get i).position (peaks.get j).position))) ∧
    ¬ halveLoopHalts bpmMax (rawTempoJS sr 0 0) := by
  have hM : 0 < bpmMax := lt_trans hmin hminmax
  constructor
  · intro i j hij
    have hpos : (peaks.get i).position < (peaks.get j).position :=
      List.pairwise_iff_get.mp hinc i j hij
    have hd : (peaks.get j).position - (peaks.get i).position ≠ 0 := by omega
    have hdq : (0 : ℚ) < (((peaks.get j).position - (peaks.get i).position : ℤ) : ℚ) := by
      exact_mod_cast sub_pos.mpr hpos
    have hraw : rawTempoJS sr (peaks.get i).position (peaks.get j).position =
        JSNum.fin (60 * sr / (((peaks.get j).position - (peaks.get i).position : ℤ) : ℚ)) := by
      rw [rawTempoJS, if_neg hd]
    have hq : (0 : ℚ) < 60 * sr / (((peaks.get j).position - (peaks.get i).position : ℤ) : ℚ) :=
      div_pos (by linarith) hdq
    constructor
    · rw [hraw]
      exact doubleLoopHalts_fin bpmMin _ hq
    · intro k
      rw [hraw, jsDouble_iterate_fin]
      exact halveLoopHalts_fin bpmMax _ hM
  · have hzero : rawTempoJS sr 0 0 = JSNum.inf := by rw [rawTempoJS, if_pos (by ring)]
    rw [hzero]
    exact halveLoopHalts_inf_false bpmMax

theorem foldLoops_termination_witness :
    ¬ halveLoopHalts 180 (rawTempoJS 44100 0 0) :=
  (foldLoops_termination 44100 90 180 [] (by norm_num) (by norm_num) (by norm_num)
    (List.Pairwise.nil)).2

/-! ### Octave folding keeps the tempo in range (C1) -/

theorem doubleSteps_gt (bpmMin : ℚ) (fuel : ℕ) (tempo : ℚ) (ht : 0 < tempo)
    (hfuel : bpmMin < tempo * 2 ^ fuel) : bpmMin < doubleSteps bpmMin fuel tempo := by
  induction fuel generalizing tempo with
  | zero => simpa using hfuel
  | succ f ih =>
    rw [doubleSteps]
    split
    · apply ih (tempo * 2) (by positivity)
      calc bpmMin < tempo * 2 ^ (f + 1) := hfuel
      _ = tempo * 2 * 2 ^ f := by ring
    · exact not_le.mp (by assumption)

theorem foldUp_gt (bpmMin tempo : ℚ) (ht : 0 < tempo) : bpmMin < foldUp bpmMin tempo := by
  apply doubleSteps_gt _ _ _ ht
  have h := lt_two_pow_ceil_toNat (bpmMin / tempo)
  rw [div_lt_iff₀ ht] at h
  calc bpmMin < 2 ^ ⌈bpmMin / tempo⌉.toNat * tempo := h
  _ = tempo * 2 ^ ⌈bpmMin / tempo⌉.toNat := by ring

theorem halveSteps_bounds (bpmMin bpmMax : ℚ) (fuel : ℕ) (tempo : ℚ)
    (hspan : 2 * bpmMin ≤ bpmMax) (ht : bpmMin < tempo)
    (hfuel : tempo ≤ bpmMax * 2 ^ fuel) :
    bpmMin < halveSteps bpmMax fuel tempo ∧ halveSteps bpmMax fuel tempo ≤ bpmMax := by
  induction fuel generalizing tempo with
  | zero => exact ⟨ht, by simpa using hfuel⟩
  | succ f ih =>
    rw [halveSteps]
    split
    · have hgt : bpmMax < tempo := by assumption
      apply ih (tempo / 2)
      · linarith
      · rw [pow_succ] at hfuel
        linarith
    · exact ⟨ht, not_lt.mp (by assumption)⟩

theorem foldDown_mem (bpmMin bpmMax tempo : ℚ)
    (hmin : 0 < bpmMin) (hspan : 2 * bpmMin ≤ bpmMax) (ht : bpmMin < tempo) :
    bpmMin < foldDown bpmMax tempo ∧ foldDown bpmMax tempo ≤ bpmMax := by
  apply halveSteps_bounds _ _ _ _ hspan ht
  have hM : 0 < bpmMax := by linarith
  have h := lt_two_pow_ceil_toNat (tempo / bpmMax)
  rw [div_lt_iff₀ hM] at h
  have h2 : tempo < bpmMax * 2 ^ ⌈tempo / bpmMax⌉.toNat := by
    calc tempo < 2 ^ ⌈tempo / bpmMax⌉.toNat * bpmMax := h
    _ = bpmMax * 2 ^ ⌈tempo / bpmMax⌉.toNat := by ring
  exact h2.le

theorem addVote_tempo_mem {Q : ℚ → Prop} (peak : Peak) (tempo : ℚ) (anchor : ℤ)
    (groups : List IntervalGroup) (hg : ∀ g ∈ groups, Q g.tempo) (ht : Q tempo) :
    ∀ g ∈ addVote peak tempo anchor groups, Q g.tempo := by
  induction groups with
  | nil =>
    intro g hmem
    rw [addVote] at hmem
    rcases List.mem_singleton.mp hmem with rfl
    exact ht
  | cons g0 gs ih =>
    intro g hmem
    rw [addVote] at hmem
    split at hmem
    · rcases List.mem_cons.mp hmem with rfl | hmem'
      · simpa using hg g0 (by simp)
      · exact hg g (List.mem_cons_of_mem _ hmem')
    · rcases List.mem_cons.mp hmem with rfl | hmem'
      · exact hg g (by simp)
      · exact ih (fun g' hg' => hg g' (List.mem_cons_of_mem _ hg')) g hmem'

theorem voteStep_foldl_inv (sr bpmMin bpmMax : ℚ) (rnd : Bool) (prec : ℕ) (peaks : List Peak)
    (hsr : 0 < sr) (hmin : 0 < bpmMin) (hspan : 2 * bpmMin ≤ bpmMax) :
    ∀ (pairs : List (ℕ × ℕ)) (acc : Option (List IntervalGroup)) (groups : List IntervalGroup),
      pairs.foldl (voteStep sr bpmMin bpmMax rnd prec peaks) acc = some groups →
      (∀ gs0, acc = some gs0 → ∀ g ∈ gs0,
        ∃ t, bpmMin < t ∧ t ≤ bpmMax ∧ g.tempo = roundCfg rnd prec t) →
      ∀ g ∈ groups, ∃ t, bpmMin < t ∧ t ≤ bpmMax ∧ g.tempo = roundCfg rnd prec t := by
  intro pairs
  induction pairs with
  | nil =>
    intro acc groups hfold hacc
    exact hacc groups hfold
  | cons pr rest ih =>
    intro acc groups hfold hacc
    rw [List.foldl_cons] at hfold
    apply ih _ _ hfold
    intro gs0 hstep
    unfold voteStep at hstep
    cases acc with
    | none => exact absurd hstep (by simp)
    | some gs1 =>
      rw [Option.some_bind] at hstep
      by_cases hd :
          (peaks.getD pr.2 default).position - (peaks.getD pr.1 default).position ≤ 0
      · rw [if_pos hd] at hstep
        exact absurd hstep (by simp)
      · rw [if_neg hd] at hstep
        injection hstep with hstep
        subst hstep
        push_neg at hd
        have hdq : (0 : ℚ) <
            (((peaks.getD pr.2 default).position - (peaks.getD pr.1 default).position : ℤ) : ℚ) := by
          exact_mod_cast hd
        have hraw : (0 : ℚ) < 60 * sr /
            (((peaks.getD pr.2 default).position - (peaks.getD pr.1 default).position : ℤ) : ℚ) :=
          div_pos (by linarith) hdq
        have hup := foldUp_gt bpmMin _ hraw
        have hdown := foldDown_mem bpmMin bpmMax _ hmin hspan hup
        exact @addVote_tempo_mem
          (fun tp => ∃ t, bpmMin < t ∧ t ≤ bpmMax ∧ tp = roundCfg rnd prec t)
          _ _ _ _ (hacc gs1 rfl)
          ⟨foldDown bpmMax (foldUp bpmMin (60 * sr /
            (((peaks.getD pr.2 default).position - (peaks.getD pr.1 default).position : ℤ) : ℚ))),
            hdown.1, hdown.2, rfl⟩

/-- C1 (amended): for a configured range with `0 < bpmMin` and
`2 * bpmMin ≤ bpmMax` (the default `[90, 180]` satisfies both), every
group a terminating `_getIntervals` run produces carries the configured
rounding of a folded tempo `t` with `bpmMin < t ≤ bpmMax` — the folded
tempo lands in the half-open interval `(bpmMin, bpmMax]`, NOT in
`[bpmMin, bpmMax)` as claimed: a raw tempo of exactly `bpmMax` passes
both loop guards untouched. -/
theorem getIntervals_tempo_range (sr bpmMin bpmMax : ℚ) (rnd : Bool) (prec : ℕ)
    (peaks : List Peak) (gs : List IntervalGroup)
    (hsr : 0 < sr) (hmin : 0 < bpmMin) (hspan : 2 * bpmMin ≤ bpmMax)
    (h : getIntervals sr bpmMin bpmMax rnd prec peaks = some gs) :
    ∀ g ∈ gs, ∃ t, bpmMin < t ∧ t ≤ bpmMax ∧ g.tempo = roundCfg rnd prec t := by
  unfold getIntervals at h
  apply voteStep_foldl_inv sr bpmMin bpmMax rnd prec peaks hsr hmin hspan _ _ _ h
  intro gs0 h0 g hg
  injection h0 with h0
  subst h0
  cases hg

theorem getIntervals_180_eval :
    getIntervals 44100 90 180 false 8
      [{ position := 0, volume := 1 }, { position := 14700, volume := 1 }] =
      some [{ tempo := 180, count := 1, position := 0, peaks := [] }] := by
  norm_num [getIntervals, voteStep, intervalPairs, intervalTempo, foldUp, foldDown,
    doubleSteps, halveSteps, roundCfg, floatRound, addVote, ceil_as_floor, round_eq,
    List.range', List.range_succ]

/-- C1 (counterexample): with the default range `[90, 180]`, sample rate
44100 and two peaks 14700 samples apart, the raw tempo is exactly 180;
`180 <= 90` and `180 > 180` are both false, so neither folding loop fires,
and the group's tempo — before and after the configured rounding — is
`180`, violating the claimed `tempo < bpmMax`. -/
theorem getIntervals_tempo_range_cex :
    getIntervals 44100 90 180 false 8
      [{ position := 0, volume := 1 }, { position := 14700, volume := 1 }] =
      some [{ tempo := 180, count := 1, position := 0, peaks := [] }] ∧
    ¬ ((180 : ℚ) < 180) :=
  ⟨getIntervals_180_eval, by norm_num⟩

theorem getIntervals_tempo_range_witness :
    ∃ t, (90 : ℚ) < t ∧ t ≤ 180 ∧
      ({ tempo := 180, count := 1, position := 0, peaks := [] } : IntervalGroup).tempo
        = roundCfg false 8 t :=
  getIntervals_tempo_range 44100 90 180 false 8
    [{ position := 0, volume := 1 }, { position := 14700, volume := 1 }]
    [{ tempo := 180, count := 1, position := 0, peaks := [] }]
    (by norm_num) (by norm_num) (by norm_num) getIntervals_180_eval
    { tempo := 180, count := 1, position := 0, peaks := [] } (by simp)

/-! ### Silent input makes the pipeline diverge, not fail cleanly (C2) -/

/-- C2: on a fully silent stereo buffer (here 4 windows of size 2, i.e.
`_sampleRate = 4`) every kept peak sits at position 0, so the very first
interval of `_getIntervals` has distance 0 and raw tempo
`60 * sampleRate / 0 = +Infinity`.  The guard `Infinity <= bpmMin` is
false but `Infinity > bpmMax` is true, and `Infinity / 2 = Infinity`, so
the halving loop never exits: the pipeline hangs — it neither surfaces a
`DetectionFailure` nor returns a NaN result.  The `Option` model records
the run as `none`, and the `JSNum` model proves the genuine divergence. -/
theorem silentBuffer_pipeline_diverges :
    getIntervals 44100 90 180 false 8
      (getPeaks 2 (List.replicate 8 0) (List.replicate 8 0)) = none ∧
    rawTempoJS 44100 0 0 = JSNum.inf ∧
    ¬ halveLoopHalts 180 (rawTempoJS 44100 0 0) := by
  refine ⟨?_, rfl, halveLoopHalts_inf_false 180⟩
  have hpc : partCount (List.replicate 8 (0:ℚ)).length 2 = 4 := by
    rw [List.length_replicate, partCount_eq 8 2 (by norm_num)]
  rw [getPeaks, getPeaksRaw, hpc]
  decide

/-! ### The first-bar clamp (C3) -/

theorem subWhile_lt (bpmTime step : ℚ) (fuel : ℕ) (offset : ℚ)
    (hfuel : offset - fuel * step < bpmTime) :
    subWhile bpmTime step fuel offset < bpmTime := by
  induction fuel generalizing offset with
  | zero => simpa using hfuel
  | succ f ih =>
    rw [subWhile]
    split
    · apply ih
      push_cast at hfuel ⊢
      linarith
    · exact not_le.mp (by assumption)

theorem addWhile_lt (bpmTime : ℚ) (fuel : ℕ) (offset : ℚ)
    (hoff : offset < bpmTime) :
    addWhile bpmTime fuel offset < bpmTime := by
  induction fuel generalizing offset with
  | zero => simpa using hoff
  | succ f ih =>
    rw [addWhile]
    split
    · apply ih
      have : offset < 0 := by assumption
      linarith
    · exact hoff

theorem lowestTimeOffset_lt (sr sig : ℚ) (position : ℤ) (bpm : ℚ)
    (hbpm : 0 < bpm) (hsig : 0 < sig) :
    lowestTimeOffset sr sig position bpm < 60 / bpm := by
  simp only [lowestTimeOffset]
  have hbt : (0 : ℚ) < 60 / bpm := by positivity
  have hstep : (0 : ℚ) < 60 / bpm * sig := by positivity
  have ho1 : subWhile (60 / bpm) (60 / bpm * sig)
      (⌈(position : ℚ) / sr / (60 / bpm * sig)⌉.toNat) ((position : ℚ) / sr) < 60 / bpm := by
    apply subWhile_lt
    rcases le_or_lt ((position : ℚ) / sr) 0 with h | h
    · have hnn : (0 : ℚ) ≤ (⌈(position : ℚ) / sr / (60 / bpm * sig)⌉.toNat : ℚ) * (60 / bpm * sig) := by
        positivity
      linarith
    · have h1 := le_ceil_toNat ((position : ℚ) / sr / (60 / bpm * sig)) (by positivity)
      rw [div_le_iff₀ hstep] at h1
      linarith
  split
  · exact addWhile_lt _ _ _ ho1
  · exact ho1

theorem meanStep_fold_inv (sr sig bpm refOffset : ℚ) (hbpm : 0 < bpm) (hsig : 0 < sig)
    (l : List Peak) :
    ∀ st : ℚ × ℕ, st.1 < (st.2 : ℚ) * (60 / bpm) → 1 ≤ st.2 →
      (l.foldl (meanStep sr sig bpm refOffset) st).1 <
        (((l.foldl (meanStep sr sig bpm refOffset) st).2 : ℕ) : ℚ) * (60 / bpm) ∧
      1 ≤ (l.foldl (meanStep sr sig bpm refOffset) st).2 := by
  induction l with
  | nil => intro st h1 h2; exact ⟨h1, h2⟩
  | cons p rest ih =>
    intro st h1 h2
    rw [List.foldl_cons]
    apply ih
    · unfold meanStep
      split
      · have ho := lowestTimeOffset_lt sr sig p.position bpm hbpm hsig
        show st.1 + lowestTimeOffset sr sig p.position bpm <
          ((st.2 + 1 : ℕ) : ℚ) * (60 / bpm)
        push_cast
        linarith
      · exact h1
    · unfold meanStep
      split
      · show 1 ≤ st.2 + 1
        omega
      · exact h2

theorem meanDivider_bounds (sr sig bpm : ℚ) (top : Peak) (rest : List Peak)
    (hbpm : 0 < bpm) (hsig : 0 < sig) :
    (meanDivider sr sig bpm (lowestTimeOffset sr sig top.position bpm) (top :: rest)).1 <
      (((meanDivider sr sig bpm (lowestTimeOffset sr sig top.position bpm)
          (top :: rest)).2 : ℕ) : ℚ) * (60 / bpm) ∧
    1 ≤ (meanDivider sr sig bpm (lowestTimeOffset sr sig top.position bpm) (top :: rest)).2 := by
  unfold meanDivider
  rw [List.foldl_cons]
  have hband : bandTest (lowestTimeOffset sr sig top.position bpm)
      (lowestTimeOffset sr sig top.position bpm) := by
    unfold bandTest
    left
    rw [sub_self]
    norm_num
  apply meanStep_fold_inv sr sig bpm _ hbpm hsig
  · unfold meanStep
    rw [if_pos hband]
    have ho := lowestTimeOffset_lt sr sig top.position bpm hbpm hsig
    show (0 : ℚ) + lowestTimeOffset sr sig top.position bpm <
      ((0 + 1 : ℕ) : ℚ) * (60 / bpm)
    push_cast
    linarith
  · unfold meanStep
    rw [if_pos hband]

/-- C3 (amended): the final `firstBar` is below one beat period `60/bpm`
exactly when the pre-clamp candidate (the corrected time of the first raw
peak with volume `>= 0.02`) already is: the clamp replaces the candidate
by the mean offset only when `offset < firstBar < 60/bpm`, and the mean
offset always lies below `60/bpm`; but a candidate at or beyond one beat
period is returned unchanged. -/
theorem getOffsets_firstBar_iff (w : ℕ) (sr sig : ℚ) (data : List ℚ) (bpm : ℚ)
    (res : Offsets) (hbpm : 0 < bpm) (hsig : 0 < sig)
    (h : getOffsets w sr sig data bpm = some res) :
    (res.firstBar < 60 / bpm ↔ firstBarCandidate w sr data bpm < 60 / bpm) := by
  simp only [getOffsets] at h
  cases hpk : List.insertionSort volDesc (getOffsetsRawPeaks w sr data bpm) with
  | nil =>
    rw [hpk] at h
    simp at h
  | cons top rest =>
    rw [hpk] at h
    rw [if_neg (List.cons_ne_nil top rest)] at h
    by_cases hi : firstBarScanIdx (getOffsetsRawPeaks w sr data bpm) <
        (getOffsetsRawPeaks w sr data bpm).length
    · rw [if_pos hi] at h
      injection h with h
      subst h
      simp only [List.headD_cons] at *
      have hmd := meanDivider_bounds sr sig bpm top rest hbpm hsig
      have hdivpos : (0 : ℚ) <
          ((meanDivider sr sig bpm (lowestTimeOffset sr sig top.position bpm)
            (top :: rest)).2 : ℚ) := by
        exact_mod_cast lt_of_lt_of_le one_pos hmd.2
      have hofs : (meanDivider sr sig bpm (lowestTimeOffset sr sig top.position bpm)
            (top :: rest)).1 /
          ((meanDivider sr sig bpm (lowestTimeOffset sr sig top.position bpm)
            (top :: rest)).2 : ℚ) < 60 / bpm := by
        rw [div_lt_iff₀ hdivpos, mul_comm]
        exact hmd.1
      have hcand : firstBarCandidate w sr data bpm =
          (((getOffsetsRawPeaks w sr data bpm).getD
            (firstBarScanIdx (getOffsetsRawPeaks w sr data bpm)) default).position : ℚ) / sr := by
        simp only [firstBarCandidate]
      show (if _ ∧ _ then _ else _) < 60 / bpm ↔ _
      split
      · rename_i hclamp
        exact iff_of_true hofs (hcand ▸ hclamp.2)
      · rw [hcand]
    · rw [if_neg hi] at h
      exact absurd h (by simp)

theorem getOffsets_firstBar_iff_witness :
    (({ offset := 1 / 10, firstBar := 1 / 10 } : Offsets).firstBar < 60 / 60 ↔
      firstBarCandidate 5 10 [0, 0, (1:ℚ)/2, 0, 0] 60 < 60 / 60) :=
  getOffsets_firstBar_iff 5 10 4 [0, 0, (1:ℚ)/2, 0, 0] 60
    { offset := 1 / 10, firstBar := 1 / 10 } (by norm_num) (by norm_num)
    (by norm_num [getOffsets, getOffsetsRawPeaks, partCount_eq, lowestTimeOffset, subWhile,
      addWhile, ceil_as_floor, round_eq, meanDivider, meanStep, bandTest, firstBarScanIdx,
      List.insertionSort, List.orderedInsert, volDesc, List.range', List.findIdx,
      List.findIdx.go, List.getD])

/-- C3 (counterexample): a 1.5-second channel at `_sampleRate = 10`
(window size 5), `bpm = 60`, `timeSignature = 4`, whose only loud sample
sits at index 12: the corrected candidate time is `11/10`, which is not
below the beat period `60/60 = 1`, so the clamp condition
`firstBar < 60 / bpm` is false and the emitted `firstBar = 11/10`
violates the claimed `firstBar < 60/bpm`. -/
theorem getOffsets_firstBar_cex :
    getOffsets 5 10 4 [0, 0, 0, 0, 0, 0, 0, 0, 0, 0, 0, 0, (1:ℚ)/2, 0, 0] 60 =
      some { offset := 1 / 30, firstBar := 11 / 10 } ∧
    ¬ ((11 : ℚ) / 10 < 60 / 60) := by
  constructor
  · norm_num [getOffsets, getOffsetsRawPeaks, partCount_eq, lowestTimeOffset, subWhile,
      addWhile, ceil_as_floor, round_eq, meanDivider, meanStep, bandTest, firstBarScanIdx,
      List.insertionSort, List.orderedInsert, volDesc, List.range', List.findIdx,
      List.findIdx.go, List.getD]
    simp
  · norm_num

/-! ### Tap tempo (C8) -/

/-- C8: on every tap with a previous tap recorded the callback receives
`60000 * count / (current - first)` rounded to the configured precision;
the scenario of taps 500 ms apart starting at any positive clock value
`t` (`Date.now()` is never 0) delivers no payload on the first tap and
BPM 120 on each of the three following taps; and the idle timer — re-armed
with a 5000 ms delay on every tap — zeroes all session counters and
delivers the "no data" sentinel when it fires. -/
theorem tapBpm_scenario (t : ℚ) (ht : 0 < t) :
    (∀ (p : ℕ) (now : ℚ) (s : TapState), s.previous ≠ 0 → s.first ≠ 0 →
      (tapStep (some p) now s).2 = some (floatRound (60000 * s.count / (now - s.first)) p)) ∧
    tapRun (some 0) [t, t + 500, t + 1000, t + 1500] =
      ({ count := 4, current := t + 1500, previous := t + 1500, first := t },
        [none, some 120, some 120, some 120]) ∧
    tapReset = (tapInit, "--") ∧
    tapIdleDelay = 5000 := by
  refine ⟨?_, ?_, rfl, rfl⟩
  · intro p now s hprev hfirst
    simp only [tapStep, if_neg hfirst, if_pos hprev]
  · have ht0 : t ≠ 0 := ne_of_gt ht
    have h5 : t + 500 ≠ 0 := by positivity
    have h10 : t + 1000 ≠ 0 := by positivity
    have h15 : t + 1500 ≠ 0 := by positivity
    simp only [tapRun, List.foldl_cons, List.foldl_nil, tapStep, tapInit, ht0, h5, h10, h15,
      if_true, if_false, ite_true, ite_false, if_pos, if_neg, ne_eq, not_false_iff]
    norm_num [floatRound, round_eq]

theorem tapBpm_scenario_witness :
    tapRun (some 0) [(1 : ℚ), 1 + 500, 1 + 1000, 1 + 1500] =
      ({ count := 4, current := 1 + 1500, previous := 1 + 1500, first := 1 },
        [none, some 120, some 120, some 120]) :=
  (tapBpm_scenario 1 (by norm_num)).2.1
